import Mathlib

/-!
Verification development for the airpilot FDR replay backend.

The replay session engine lives in the NestJS `PilotService`.  The repository
carries two revisions of this service; the wired-in one is the revision found
in `src/unnamed/part_001` (its `getPath` method is required by
`pilot.controller.ts` and `pilot.gateway.ts`, which the revision in
`src/backend/src/pilot/pilot.service.ts` does not provide).  The definitions
below are a shallow embedding of that live revision, with the separate
`PilotRepository` (`src/backend/src/pilot/pilot.repository.ts`) embedded as
well for the load-ordering analysis.

Modelling conventions:
* JS numbers that stay finite are modelled as `ℚ` (rates, seek offsets) or
  `ℤ` (epoch-millisecond timestamps, indices, delays); the non-finite
  behaviour of `Math.max` relevant to rate clamping is modelled separately
  by `JSNum`.
* `setTimeout` handles are modelled by recording the pending advance:
  `timer = some (delay, cb)` means one advance is scheduled after `delay`
  milliseconds which will invoke callback `cb`; `clearTimeout` sets `none`.
* Delivery callbacks are identified by a tag (`ℕ`); a delivered tick is the
  triple (delay that elapsed before the delivery, callback tag, payload).
  The payload is `Option FdrTick` because `onTick(s.data[s.idx])` passes
  `undefined` when the index is out of range.
* The JS `Map` of sessions is an insertion-ordered association list.
-/

namespace Airpilot

/-- Separator used by the session key template literal. -/
def colonStr : String := ":"

/-- A JavaScript number, including the non-finite values, used to analyse
the `Math.max(0.1, rate)` clamp in `setRate`. -/
inductive JSNum
  | nan
  | posInf
  | negInf
  | fin (q : ℚ)
deriving DecidableEq

/-- ECMAScript `Math.max` on two arguments: `NaN` if either argument is
`NaN`, otherwise the larger value. -/
def jsMax : JSNum → JSNum → JSNum
  | JSNum.nan, _ => JSNum.nan
  | _, JSNum.nan => JSNum.nan
  | JSNum.posInf, _ => JSNum.posInf
  | _, JSNum.posInf => JSNum.posInf
  | JSNum.negInf, b => b
  | a, JSNum.negInf => a
  | JSNum.fin a, JSNum.fin b => JSNum.fin (max a b)

/-- The rate actually stored by `setRate`: embeds the source line
`s.rate = Math.max(0.1, rate)` (part_001 line 201) over full JS number
semantics. -/
def clampRate (rate : JSNum) : JSNum := jsMax (JSNum.fin (1/10)) rate

/-- One telemetry sample as streamed to viewers (`FdrTick`, part_001
lines 8-27).  Nullable measurement fields are `Option`s; `ts` is the epoch
millisecond timestamp computed from `date` + `utcTime`. -/
structure FdrTick where
  id : ℤ
  ts : ℤ
  utcTime : String
  date : ℤ
  flightNumber : String
  latitude : Option ℚ
  longitude : Option ℚ
  pressureAltitude : Option ℤ
  pitchAngle : Option ℤ
  rollAngle : Option ℤ
  magHeading : Option ℤ
  computedAirspeed : Option ℤ
  verticalSpeed : Option ℤ
  flapPosition : Option ℤ
  gearSelectionUp : Option ℤ
  ap1Engaged : Option ℤ
  ap2Engaged : Option ℤ
  airGround : Option ℤ
deriving DecidableEq

/-- A tick with the given identity and timestamp and no measurements;
used to build concrete test sessions. -/
def mkTick (id ts : ℤ) : FdrTick :=
  ⟨id, ts, "", 0, "", none, none, none, none, none, none, none, none, none,
   none, none, none, none⟩

instance : Inhabited FdrTick := ⟨mkTick 0 0⟩

/-- A delivered tick: the timer delay that elapsed right before the
delivery, the callback tag invoked, and the argument passed to it
(`none` models `onTick(undefined)`). -/
def Delivery := ℤ × ℕ × Option FdrTick
deriving instance DecidableEq for Delivery

/-- Mutable per-key playback state (`Session`, part_001 lines 33-41). -/
structure Session where
  key : String
  data : List FdrTick
  idx : ℕ
  playing : Bool
  rate : ℚ
  timer : Option (ℤ × ℕ)
  lastOnTick : Option ℕ
deriving DecidableEq

namespace Session

/-- The `delay` computed by `scheduleNext` (part_001 line 157):
`next ? Math.max(10, Math.floor((next.ts - cur.ts) / s.rate)) : 0`.
The `(some next, none)` case is unreachable (if index `idx+1` is populated
so is `idx`) and is mapped to the same value as a missing `next`. -/
def delayAt (s : Session) : ℤ :=
  match s.data[s.idx + 1]?, s.data[s.idx]? with
  | some next, some cur => max 10 ⌊((next.ts - cur.ts : ℚ) / s.rate)⌋
  | _, _ => 0

/-- `scheduleNext` (part_001 lines 152-169): when playing, install the one
pending advance with the freshly computed delay; the timer body itself is
modelled by `fire`. -/
def scheduleNext (s : Session) (cb : ℕ) : Session :=
  if s.playing = false then s
  else { s with timer := some (s.delayAt, cb) }

/-- The `setTimeout` body of `scheduleNext` firing (part_001 lines
159-168).  `fails = true` models the delivery callback raising: execution
of the body stops right after `onTick`, so the cursor is not incremented
and nothing is rescheduled (the source has no try/catch). -/
def fire (fails : Bool) (s : Session) : Session × List Delivery :=
  match s.timer with
  | none => (s, [])
  | some (d, cb) =>
    let s0 := { s with timer := none }
    if s0.playing = false then (s0, [])
    else
      let out : List Delivery := [(d, cb, s0.data[s0.idx]?)]
      if fails then (s0, out)
      else
        let s1 := { s0 with idx := s0.idx + 1 }
        if s1.data.length ≤ s1.idx then ({ s1 with playing := false }, out)
        else (scheduleNext s1 cb, out)

/-- `resume` (part_001 lines 183-190): record the callback, then start
playing unless already playing or the sample list is empty. -/
def resume (s : Session) (cb : ℕ) : Session :=
  let s1 := { s with lastOnTick := some cb }
  if s1.playing = true ∨ s1.data = [] then s1
  else scheduleNext { s1 with playing := true } cb

/-- `pause` (part_001 lines 192-197): stop playing and cancel any pending
advance. -/
def pause (s : Session) : Session :=
  { s with playing := false, timer := none }

/-- `setRate` (part_001 lines 199-207) on finite rates: store the clamped
rate, and if playing restart the schedule through `pause`/`resume` with
the remembered callback; returns the stored rate. -/
def setRate (s : Session) (rate : ℚ) : Session × ℚ :=
  let s1 := { s with rate := max (1/10) rate }
  if s1.playing = true then
    let s2 := pause s1
    match s2.lastOnTick with
    | some cb => (resume s2 cb, s2.rate)
    | none => (s2, s2.rate)
  else (s1, s1.rate)

/-- The snapshot record (part_001 lines 173-180). -/
structure Snap where
  key : String
  idx : ℕ
  total : ℕ
  playing : Bool
  rate : ℚ
  point : Option FdrTick
deriving DecidableEq

/-- The pure projection built by `snapshot` (part_001 lines 171-181);
`s.data[s.idx] ?? null` becomes the optional lookup. -/
def snap (s : Session) : Snap :=
  ⟨s.key, s.idx, s.data.length, s.playing, s.rate, s.data[s.idx]?⟩

/-- The binary-search loop of `seekSeconds` (part_001 lines 216-225).
`lo` starts at 0 and never becomes negative, so it is a `ℕ`; `hi` can
reach -1 and is an `ℤ`.  `mid = (lo + hi) >> 1` is the floor of the mean
(both bounds are nonnegative whenever the loop body runs). -/
def seekLoop (tsl : List ℤ) (target : ℚ) (lo : ℕ) (hi : ℤ) (ans : ℕ) : ℕ :=
  if h : (lo : ℤ) ≤ hi then
    let mid : ℕ := (lo + hi.toNat) / 2
    if ((tsl.getD mid 0 : ℤ) : ℚ) ≤ target then
      seekLoop tsl target (mid + 1) hi mid
    else
      seekLoop tsl target lo ((mid : ℤ) - 1) ans
  else ans
termination_by (hi + 1 - (lo : ℤ)).toNat
decreasing_by
  all_goals omega

/-- The seek target (part_001 line 213):
`(s.data[s.idx]?.ts ?? s.data[0].ts) + seconds * 1000` — the current
sample's timestamp, falling back to the first sample's when the cursor is
out of bounds (the 0 default is unreachable for the non-empty sessions
that compute a target). -/
def seekTarget (s : Session) (seconds : ℚ) : ℚ :=
  (((match s.data[s.idx]? with
     | some cur => cur.ts
     | none => (s.data[0]?).elim 0 FdrTick.ts) : ℤ) : ℚ) + seconds * 1000

/-- `seekSeconds` (part_001 lines 209-228): empty data is a no-op
returning the snapshot; otherwise the cursor moves to the result of the
binary search for the target. -/
def seekSeconds (s : Session) (seconds : ℚ) : Session × Snap :=
  if s.data = [] then (s, snap s)
  else
    let s1 := { s with
      idx := seekLoop (s.data.map FdrTick.ts) (seekTarget s seconds) 0
        ((s.data.length : ℤ) - 1) 0 }
    (s1, snap s1)

/-- `seekPoints` (part_001 lines 230-234):
`s.idx = Math.max(0, Math.min(s.data.length - 1, s.idx + delta))`. -/
def seekPoints (s : Session) (delta : ℤ) : Session × Snap :=
  let s1 := { s with
    idx := (max 0 (min ((s.data.length : ℤ) - 1) ((s.idx : ℤ) + delta))).toNat }
  (s1, snap s1)

end Session

/-- A flight/date key (`FlightKey`, part_001 line 7). -/
structure FlightKey where
  flightNumber : String
  date : ℤ
deriving DecidableEq

/-- `keyOf` (part_001 line 31): the template literal joining flight number
and date. -/
def keyOf (k : FlightKey) : String :=
  k.flightNumber ++ colonStr ++ toString k.date

/-- Lookup in the insertion-ordered session map. -/
def lookupS : List (String × Session) → String → Option Session
  | [], _ => none
  | (k, v) :: rest, key => if k = key then some v else lookupS rest key

/-- Replace the value stored under `key` (models mutating the session
object referenced from the map). -/
def setAssoc : List (String × Session) → String → Session → List (String × Session)
  | [], _, _ => []
  | (k, v) :: rest, key, s =>
    if k = key then (k, s) :: rest else (k, v) :: setAssoc rest key s

/-- The engine: the `sessions` map plus a ghost counter of telemetry-store
loads (each `loadFlight` call during `ensureSession` increments it). -/
structure Engine where
  sessions : List (String × Session)
  loads : ℕ
deriving DecidableEq

/-- The engine with no sessions and no loads performed. -/
def Engine.empty : Engine := ⟨[], 0⟩

/-- `ensureSession` (part_001 lines 141-150): return the registered
session, or load the data from the store, register a fresh session
(`idx 0`, not playing, rate 1, no timer, no remembered callback) and
return it. -/
def ensureSession (store : FlightKey → List FdrTick) (e : Engine) (k : FlightKey) :
    Engine × Session :=
  match lookupS e.sessions (keyOf k) with
  | some s => (e, s)
  | none =>
    let s : Session := ⟨keyOf k, store k, 0, false, 1, none, none⟩
    (⟨e.sessions ++ [(keyOf k, s)], e.loads + 1⟩, s)

/-- Write a mutated session back into the map. -/
def writeBack (e : Engine) (key : String) (s : Session) : Engine :=
  { e with sessions := setAssoc e.sessions key s }

/-- Engine-level `snapshot` (part_001 lines 171-181): ensure the session,
then build the pure projection. -/
def snapshotE (store : FlightKey → List FdrTick) (e : Engine) (k : FlightKey) :
    Engine × Session.Snap :=
  let (e1, s) := ensureSession store e k
  (e1, s.snap)

/-- Engine-level `resume`. -/
def resumeE (store : FlightKey → List FdrTick) (e : Engine) (k : FlightKey)
    (cb : ℕ) : Engine :=
  let (e1, s) := ensureSession store e k
  writeBack e1 (keyOf k) (s.resume cb)

/-- Engine-level `pause`. -/
def pauseE (store : FlightKey → List FdrTick) (e : Engine) (k : FlightKey) : Engine :=
  let (e1, s) := ensureSession store e k
  writeBack e1 (keyOf k) s.pause

/-- Engine-level `setRate`. -/
def setRateE (store : FlightKey → List FdrTick) (e : Engine) (k : FlightKey)
    (rate : ℚ) : Engine × ℚ :=
  let (e1, s) := ensureSession store e k
  let (s1, r) := s.setRate rate
  (writeBack e1 (keyOf k) s1, r)

/-- Engine-level `seekSeconds`. -/
def seekSecondsE (store : FlightKey → List FdrTick) (e : Engine) (k : FlightKey)
    (seconds : ℚ) : Engine × Session.Snap :=
  let (e1, s) := ensureSession store e k
  let (s1, snap) := s.seekSeconds seconds
  (writeBack e1 (keyOf k) s1, snap)

/-- Engine-level `seekPoints`. -/
def seekPointsE (store : FlightKey → List FdrTick) (e : Engine) (k : FlightKey)
    (delta : ℤ) : Engine × Session.Snap :=
  let (e1, s) := ensureSession store e k
  let (s1, snap) := s.seekPoints delta
  (writeBack e1 (keyOf k) s1, snap)

/-- A pending timer of the session registered under `key` firing. -/
def fireE (fails : Bool) (e : Engine) (key : String) : Engine × List Delivery :=
  match lookupS e.sessions key with
  | none => (e, [])
  | some s =>
    let (s1, out) := Session.fire fails s
    (writeBack e key s1, out)

/-! ### Timestamp computation and the telemetry store

`computeTs` (part_001 lines 56-65) and the `PilotRepository.toTs`
(`pilot.repository.ts` lines 33-39) turn the `yyyymmdd` date column plus the
`HH:MM:SS` varchar into epoch milliseconds via `Date.UTC`.  `Date.UTC` is an
ECMAScript primitive; it is embedded below through the proleptic-Gregorian
civil-day count, which agrees with `MakeDay`/`MakeTime` for month arguments
in range (the only ones reachable from valid `yyyymmdd` dates).  JS string
splitting and digit parsing are embedded on character lists; `parseInt(n,10)`
and `Number(n)` agree with the plain decimal reading on canonical digit
strings, the only strings the theorems touch. -/

/-- The colon character, used as the `split(':')` separator. -/
def colonChar : Char := Char.ofNat 58

/-- JS `String.prototype.split` with separator `':'`, on character lists. -/
def splitChars : List Char → List (List Char)
  | [] => [[]]
  | c :: rest =>
    if c = colonChar then [] :: splitChars rest
    else
      match splitChars rest with
      | [] => [[c]]
      | g :: gs => (c :: g) :: gs

/-- Decimal value of the leading digit run (0 when there is none), the
common behaviour of `parseInt(s, 10) || 0` and of `Number(s)` on canonical
digit strings. -/
def parseDigits (cs : List Char) : ℕ :=
  (cs.takeWhile Char.isDigit).foldl (fun acc c => 10 * acc + (c.toNat - 48)) 0

/-- Days from 1970-01-01 to the proleptic-Gregorian date y-m-d
(1-based month), the civil-from-days algorithm; matches ECMAScript
`MakeDay` for `m ∈ [1,12]`. -/
def daysFromCivil (y m d : ℤ) : ℤ :=
  let y2 := if m ≤ 2 then y - 1 else y
  let era := Int.fdiv y2 400
  let yoe := y2 - era * 400
  let doy := Int.fdiv (153 * (m + (if 2 < m then -3 else 9)) + 2) 5 + d - 1
  let doe := yoe * 365 + Int.fdiv yoe 4 - Int.fdiv yoe 100 + doy
  era * 146097 + doe - 719468

/-- ECMAScript `Date.UTC(y, mon0, d, hh, mm, ss)` (0-based month) in
epoch milliseconds. -/
def dateUTC (y mon0 d hh mm ss : ℤ) : ℤ :=
  daysFromCivil y (mon0 + 1) d * 86400000 + hh * 3600000 + mm * 60000 + ss * 1000

/-- The default used by `computeTs` for a falsy `utcTime`. -/
def defaultUtc : String := "00:00:00"

/-- `computeTs` (part_001 lines 56-65): split the (defaulted) time string
on colons, parse each piece with `parseInt(n,10) || 0`, and call
`Date.UTC`.  JS `/` with `Math.floor` is `Int.fdiv`; JS `%` is `Int.tmod`. -/
def computeTs (date : ℤ) (utcTime : String) : ℤ :=
  let y := Int.fdiv date 10000
  let m := Int.fdiv (Int.tmod date 10000) 100
  let d := Int.tmod date 100
  let parts := splitChars (if utcTime = "" then defaultUtc else utcTime).data
  let hh : ℤ := (parseDigits (parts.getD 0 []) : ℤ)
  let mm : ℤ := (parseDigits (parts.getD 1 []) : ℤ)
  let ss : ℤ := (parseDigits (parts.getD 2 []) : ℤ)
  dateUTC y (m - 1) d hh mm ss

/-- `PilotRepository.toTs` (`pilot.repository.ts` lines 33-39): same
shape, but parsing with `Number` and no falsy default. -/
def toTs (date : ℤ) (utc : String) : ℤ :=
  let yyyy := Int.fdiv date 10000
  let mm := Int.fdiv (Int.tmod date 10000) 100
  let dd := Int.tmod date 100
  let parts := splitChars utc.data
  let h : ℤ := (parseDigits (parts.getD 0 []) : ℤ)
  let m : ℤ := (parseDigits (parts.getD 1 []) : ℤ)
  let s : ℤ := (parseDigits (parts.getD 2 []) : ℤ)
  dateUTC yyyy (mm - 1) dd h m s

/-- A row of the `fdr_records` table (`fdr-record.entity.ts`); nullable
columns are `Option`s. -/
structure FdrRecord where
  id : ℤ
  flightNumber : String
  date : ℤ
  utcTime : String
  fdrTime : Option ℤ
  pressureAltitude : Option ℤ
  pitchAngle : Option ℤ
  rollAngle : Option ℤ
  magHeading : Option ℤ
  computedAirspeed : Option ℤ
  verticalSpeed : Option ℤ
  latitude : Option ℚ
  longitude : Option ℚ
  flapPosition : Option ℤ
  gearSelectionUp : Option ℤ
  ap1Engaged : Option ℤ
  ap2Engaged : Option ℤ
  airGround : Option ℤ
deriving DecidableEq

/-- A record with the given id, date and time string and no measurements;
used to build concrete row sets. -/
def mkRecord (id : ℤ) (date : ℤ) (utc : String) : FdrRecord :=
  ⟨id, "F1", date, utc, none, none, none, none, none, none, none, none,
   none, none, none, none, none, none⟩

/-- `mapRecord` (part_001 lines 67-88): build the streamed tick;
`toNum` is `v == null ? null : Number(v)`, the identity on the typed
columns. -/
def mapRecord (r : FdrRecord) : FdrTick :=
  ⟨r.id, computeTs r.date r.utcTime, r.utcTime, r.date, r.flightNumber,
   r.latitude, r.longitude, r.pressureAltitude, r.pitchAngle, r.rollAngle,
   r.magHeading, r.computedAirspeed, r.verticalSpeed, r.flapPosition,
   r.gearSelectionUp, r.ap1Engaged, r.ap2Engaged, r.airGround⟩

/-- The row-to-tick mapping of `PilotRepository.loadFlight`
(`pilot.repository.ts` lines 47-66). -/
def repoMapRow (r : FdrRecord) : FdrTick :=
  ⟨r.id, toTs r.date r.utcTime, r.utcTime, r.date, r.flightNumber,
   r.latitude, r.longitude, r.pressureAltitude, r.pitchAngle, r.rollAngle,
   r.magHeading, r.computedAirspeed, r.verticalSpeed, r.flapPosition,
   r.gearSelectionUp, r.ap1Engaged, r.ap2Engaged, r.airGround⟩

/-- `PilotService.loadFlight` (part_001 lines 90-138) applied to the rows
the database returned for its query. -/
def loadFlightSvc (rows : List FdrRecord) : List FdrTick := rows.map mapRecord

/-- `PilotRepository.loadFlight` (`pilot.repository.ts` lines 41-67)
applied to the rows the database returned for its query. -/
def loadFlightRepo (rows : List FdrRecord) : List FdrTick := rows.map repoMapRow

/-- Byte-wise lexicographic string comparison (`≤`), modelling how MySQL
orders the `utc_time` varchar under `ORDER BY ... ASC`. -/
def strLeB : List Char → List Char → Bool
  | [], _ => true
  | _ :: _, [] => false
  | a :: as, b :: bs =>
    if a.toNat < b.toNat then true
    else if b.toNat < a.toNat then false
    else strLeB as bs

/-- NULL-first comparison of a nullable integer column under
`ORDER BY ... ASC` (MySQL sorts NULLs before all values). -/
def optLeB : Option ℤ → Option ℤ → Bool
  | none, _ => true
  | some _, none => false
  | some a, some b => decide (a ≤ b)

/-- What the database guarantees for the rows answering the service's
query (part_001 lines 93-116): the exact-match filter and
`order: { id: 'ASC' }`. -/
def SvcQueryResult (fn : String) (date : ℤ) (rows : List FdrRecord) : Prop :=
  (∀ r ∈ rows, r.flightNumber = fn ∧ r.date = date) ∧
  rows.Pairwise (fun a b => a.id ≤ b.id)

/-- What the database guarantees for the rows answering the repository's
query (`pilot.repository.ts` lines 42-45): the exact-match filter and
`order: { utcTime: 'ASC', fdrTime: 'ASC' }`. -/
def RepoQueryResult (fn : String) (date : ℤ) (rows : List FdrRecord) : Prop :=
  (∀ r ∈ rows, r.flightNumber = fn ∧ r.date = date) ∧
  rows.Pairwise (fun a b =>
    strLeB a.utcTime.data b.utcTime.data = true ∧
    (a.utcTime = b.utcTime → optLeB a.fdrTime b.fdrTime = true))

/-- Two-digit zero-padded decimal rendering, as produced by the importer's
`pad2` (`part_000` line 70). -/
def pad2 (n : ℕ) : List Char := [Char.ofNat (48 + n / 10), Char.ofNat (48 + n % 10)]

/-- The canonical `HH:MM:SS` rendering of a time of day. -/
def renderUtc (hh mm ss : ℕ) : String :=
  ⟨pad2 hh ++ colonChar :: (pad2 mm ++ colonChar :: pad2 ss)⟩

/-- A well-formed `utc_time` column value: a zero-padded `HH:MM:SS`
string for an in-range time of day, the normal form the importer writes
(`part_000` lines 72-108). -/
def WfUtc (s : String) : Prop :=
  ∃ hh mm ss, hh < 24 ∧ mm < 60 ∧ ss < 60 ∧ s = renderUtc hh mm ss

/-! ### Spec-side definitions

These two definitions follow the specification's words, not the source;
they exist to be compared against the source-derived `Session.delayAt`. -/

/-- Modelled from the spec: arithmetic rounding to the nearest integer
(half rounds up). -/
def specRound (q : ℚ) : ℤ := ⌊q + 1/2⌋

/-- Modelled from the spec: the pacing formula
`delay = max(minimumDelay, round((next.timestamp − cur.timestamp) / rate))`
with `minimumDelay = 10`. -/
def specDelay (tsCur tsNext : ℤ) (rate : ℚ) : ℤ :=
  max 10 (specRound ((tsNext - tsCur : ℚ) / rate))

/-! ### Supporting lemmas -/

theorem lookupS_append_self {l : List (String × Session)} {key : String}
    (h : lookupS l key = none) (s : Session) :
    lookupS (l ++ [(key, s)]) key = some s := by
  induction l with
  | nil => simp [lookupS]
  | cons p rest ih =>
    obtain ⟨k, v⟩ := p
    by_cases hk : k = key
    · simp [lookupS, hk] at h
    · simp only [lookupS, List.cons_append, if_neg hk] at h ⊢
      exact ih h

theorem resume_rate (s : Session) (cb : ℕ) : (s.resume cb).rate = s.rate := by
  simp only [Session.resume, Session.scheduleNext]
  split <;> rfl

theorem pause_rate (s : Session) : s.pause.rate = s.rate := rfl

/-! ### C7: single load per key -/

/-- C7: for a key with no registered session, calling `ensureSession`
twice in sequence triggers exactly one telemetry-store load (the ghost
counter increases by one on the first call); the second call returns the
same engine and the same registered session — with its samples, cursor,
playing flag and rate untouched — without consulting the store again. -/
theorem ensureSession_single_load
    (store : FlightKey → List FdrTick) (e : Engine) (k : FlightKey)
    (h : lookupS e.sessions (keyOf k) = none) :
    (ensureSession store e k).1.loads = e.loads + 1 ∧
    ensureSession store (ensureSession store e k).1 k = ensureSession store e k ∧
    (ensureSession store e k).2 = ⟨keyOf k, store k, 0, false, 1, none, none⟩ := by
  have h1 : ensureSession store e k =
      (⟨e.sessions ++ [(keyOf k, ⟨keyOf k, store k, 0, false, 1, none, none⟩)],
        e.loads + 1⟩,
       ⟨keyOf k, store k, 0, false, 1, none, none⟩) := by
    unfold ensureSession
    rw [h]
  have h2 := lookupS_append_self h
    (⟨keyOf k, store k, 0, false, 1, none, none⟩ : Session)
  refine ⟨by rw [h1], ?_, by rw [h1]⟩
  rw [h1]
  unfold ensureSession
  rw [h2]

/-- Witness for `ensureSession_single_load` at a concrete store and key. -/
theorem ensureSession_single_load_witness :
    lookupS Engine.empty.sessions (keyOf ⟨"F1", 20250324⟩) = none ∧
    (ensureSession (fun _ => [mkTick 1 0]) Engine.empty ⟨"F1", 20250324⟩).1.loads =
      Engine.empty.loads + 1 ∧
    ensureSession (fun _ => [mkTick 1 0])
        (ensureSession (fun _ => [mkTick 1 0]) Engine.empty ⟨"F1", 20250324⟩).1
        ⟨"F1", 20250324⟩ =
      ensureSession (fun _ => [mkTick 1 0]) Engine.empty ⟨"F1", 20250324⟩ :=
  ⟨rfl,
   (ensureSession_single_load (fun _ => [mkTick 1 0]) Engine.empty ⟨"F1", 20250324⟩ rfl).1,
   (ensureSession_single_load (fun _ => [mkTick 1 0]) Engine.empty ⟨"F1", 20250324⟩ rfl).2.1⟩

/-! ### C9: snapshot is a pure read -/

/-- C9: for an existing session, `snapshot` leaves the engine (hence every
session field, including the pending timer) unchanged and returns the
projection `{key, idx, total, playing, rate, point}` with
`total = len(samples)` and `point = samples[cursor]` when populated and
`none` otherwise; in particular an empty session reports `total = 0` and a
null current sample. -/
theorem snapshot_pure_read
    (store : FlightKey → List FdrTick) (e : Engine) (k : FlightKey) (s : Session)
    (h : lookupS e.sessions (keyOf k) = some s) :
    snapshotE store e k = (e, Session.snap s) ∧
    (snapshotE store e k).2.key = s.key ∧
    (snapshotE store e k).2.idx = s.idx ∧
    (snapshotE store e k).2.total = s.data.length ∧
    (snapshotE store e k).2.playing = s.playing ∧
    (snapshotE store e k).2.rate = s.rate ∧
    (snapshotE store e k).2.point = s.data[s.idx]? ∧
    (s.data = [] →
      (snapshotE store e k).2.total = 0 ∧ (snapshotE store e k).2.point = none) := by
  have h1 : snapshotE store e k = (e, Session.snap s) := by
    unfold snapshotE ensureSession
    rw [h]
  rw [h1]
  refine ⟨rfl, rfl, rfl, rfl, rfl, rfl, rfl, ?_⟩
  intro he
  simp [Session.snap, he]

/-- Witness for `snapshot_pure_read` at a concrete engine holding one
(empty) session. -/
theorem snapshot_pure_read_witness :
    snapshotE (fun _ => []) ⟨[("F1:1", ⟨"F1:1", [], 0, false, 1, none, none⟩)], 3⟩
        ⟨"F1", 1⟩ =
      (⟨[("F1:1", ⟨"F1:1", [], 0, false, 1, none, none⟩)], 3⟩,
       Session.snap ⟨"F1:1", [], 0, false, 1, none, none⟩) ∧
    (snapshotE (fun _ => []) ⟨[("F1:1", ⟨"F1:1", [], 0, false, 1, none, none⟩)], 3⟩
        ⟨"F1", 1⟩).2.total = 0 ∧
    (snapshotE (fun _ => []) ⟨[("F1:1", ⟨"F1:1", [], 0, false, 1, none, none⟩)], 3⟩
        ⟨"F1", 1⟩).2.point = none :=
  ⟨(snapshot_pure_read (fun _ => []) _ ⟨"F1", 1⟩ ⟨"F1:1", [], 0, false, 1, none, none⟩
      (by decide)).1,
   ((snapshot_pure_read (fun _ => []) _ ⟨"F1", 1⟩ ⟨"F1:1", [], 0, false, 1, none, none⟩
      (by decide)).2.2.2.2.2.2.2 rfl).1,
   ((snapshot_pure_read (fun _ => []) _ ⟨"F1", 1⟩ ⟨"F1:1", [], 0, false, 1, none, none⟩
      (by decide)).2.2.2.2.2.2.2 rfl).2⟩

/-! ### C3: a failing delivery callback aborts the advance step -/

/-- C3 (the code evaluated at the failing input): the advance-timer body
has no try/catch, so when the delivery callback raises, the step stops
right after the delivery attempt — the cursor stays at 0 and nothing is
rescheduled — whereas the successful step on the same state moves the
cursor to 1 and schedules the next advance. -/
theorem fire_failing_callback_aborts :
    Session.fire true
        ⟨"k", [mkTick 1 0, mkTick 2 1000], 0, true, 1, some (10, 7), some 7⟩ =
      (⟨"k", [mkTick 1 0, mkTick 2 1000], 0, true, 1, none, some 7⟩,
       [(10, 7, some (mkTick 1 0))]) ∧
    (Session.fire false
        ⟨"k", [mkTick 1 0, mkTick 2 1000], 0, true, 1, some (10, 7), some 7⟩).1.idx = 1 ∧
    (Session.fire false
        ⟨"k", [mkTick 1 0, mkTick 2 1000], 0, true, 1, some (10, 7), some 7⟩).1.timer =
      some (0, 7) := by decide

/-! ### C4: rate clamping -/

/-- C4 counterexample: `Math.max(0.1, rate)` propagates NaN and +∞, so a
non-finite rate is stored unclamped instead of being replaced by the 0.1
floor the claim promises. -/
theorem setRate_nan_not_clamped :
    clampRate JSNum.nan = JSNum.nan ∧
    clampRate JSNum.posInf = JSNum.posInf ∧
    JSNum.nan ≠ JSNum.fin (1/10) ∧
    JSNum.posInf ≠ JSNum.fin (1/10) :=
  ⟨rfl, rfl, fun h => JSNum.noConfusion h, fun h => JSNum.noConfusion h⟩

/-- C4 amended: `setRate` stores `Math.max(0.1, rate)`: every finite rate
is clamped to at least 0.1 (in particular every rate ≤ 0, and −∞, maps to
exactly 0.1) and the stored value is returned; but NaN is stored as NaN
and +∞ as +∞ — non-finite rates are not forced to the floor. -/
theorem setRate_clamp :
    (∀ q : ℚ, clampRate (JSNum.fin q) = JSNum.fin (max (1/10) q)) ∧
    (∀ q : ℚ, q ≤ 0 → clampRate (JSNum.fin q) = JSNum.fin (1/10)) ∧
    clampRate JSNum.negInf = JSNum.fin (1/10) ∧
    clampRate JSNum.nan = JSNum.nan ∧
    clampRate JSNum.posInf = JSNum.posInf ∧
    (∀ (s : Session) (q : ℚ),
      (s.setRate q).2 = max (1/10) q ∧ (s.setRate q).1.rate = max (1/10) q) := by
  refine ⟨fun q => rfl, fun q hq => ?_, rfl, rfl, rfl, fun s q => ?_⟩
  · have hm : max (1/10 : ℚ) q = 1/10 := max_eq_left (hq.trans (by norm_num))
    rw [show clampRate (JSNum.fin q) = JSNum.fin (max (1/10) q) from rfl, hm]
  · simp only [Session.setRate]
    split
    · split
      · exact ⟨rfl, by rw [resume_rate, pause_rate]⟩
      · exact ⟨rfl, rfl⟩
    · exact ⟨rfl, rfl⟩

/-- Witness for `setRate_clamp` at concrete rates. -/
theorem setRate_clamp_witness :
    clampRate (JSNum.fin (-3)) = JSNum.fin (1/10) ∧
    clampRate JSNum.negInf = JSNum.fin (1/10) ∧
    (Session.setRate ⟨"k", [], 0, false, 1, none, none⟩ 4).2 = max (1/10) 4 :=
  ⟨setRate_clamp.2.1 (-3) (by decide), setRate_clamp.2.2.1,
   (setRate_clamp.2.2.2.2.2 ⟨"k", [], 0, false, 1, none, none⟩ 4).1⟩

/-! ### More supporting lemmas for the scheduler -/

theorem delayAt_next_none {s : Session} (h : s.data[s.idx + 1]? = none) :
    s.delayAt = 0 := by
  cases h2 : s.data[s.idx]? <;> simp [Session.delayAt, h, h2]

theorem scheduleNext_playing {s : Session} (h : s.playing = true) (cb : ℕ) :
    s.scheduleNext cb = { s with timer := some (s.delayAt, cb) } := by
  simp [Session.scheduleNext, h]

theorem resume_idle (s : Session) (cb : ℕ) (hplay : s.playing = false)
    (hne : s.data ≠ []) :
    s.resume cb =
      Session.scheduleNext { s with lastOnTick := some cb, playing := true } cb := by
  simp only [Session.resume]
  rw [if_neg]
  simp [hplay, hne]

theorem fire_no_timer {s : Session} (h : s.timer = none) (b : Bool) :
    Session.fire b s = (s, []) := by
  simp [Session.fire, h]

theorem fire_end_step (s : Session) (d : ℤ) (cb : ℕ)
    (ht : s.timer = some (d, cb)) (hp : s.playing = true)
    (hend : s.data.length ≤ s.idx + 1) :
    Session.fire false s =
      ({ s with timer := none, idx := s.idx + 1, playing := false },
       [(d, cb, s.data[s.idx]?)]) := by
  simp only [Session.fire, ht]
  rw [if_neg (by simp [hp])]
  rw [if_neg (by simp)]
  rw [if_pos hend]

/-! ### C6: resuming at the last index -/

/-- C6: resuming a non-empty idle session whose cursor sits at the last
index delivers the final sample exactly once (after the 0 delay assigned
when no next sample exists), then sets `playing` to `false` with no
pending advance — any further timer event is a no-op — and the cursor
ends at `len(samples)`, never wrapping back to 0. -/
theorem resume_at_last_index (s : Session) (cb : ℕ)
    (hplay : s.playing = false) (hidx : s.idx + 1 = s.data.length) :
    (Session.fire false (s.resume cb)).2 = [(0, cb, s.data[s.idx]?)] ∧
    (∃ last, s.data[s.idx]? = some last) ∧
    (Session.fire false (s.resume cb)).1.playing = false ∧
    (Session.fire false (s.resume cb)).1.timer = none ∧
    (Session.fire false (s.resume cb)).1.idx = s.data.length ∧
    (Session.fire false (s.resume cb)).1.idx ≠ 0 ∧
    (∀ b, Session.fire b (Session.fire false (s.resume cb)).1 =
      ((Session.fire false (s.resume cb)).1, [])) := by
  have hne : s.data ≠ [] := by
    intro h
    rw [h] at hidx
    simp at hidx
  have hnext : s.data[s.idx + 1]? = none := by
    rw [hidx]
    exact List.getElem?_eq_none (le_refl _)
  have hlt : s.idx < s.data.length := by omega
  have hres : s.resume cb =
      { s with lastOnTick := some cb, playing := true, timer := some (0, cb) } := by
    rw [resume_idle s cb hplay hne, scheduleNext_playing rfl cb,
      @delayAt_next_none { s with lastOnTick := some cb, playing := true } hnext]
  rw [hres, fire_end_step _ 0 cb rfl rfl (by simpa using hidx.ge)]
  refine ⟨rfl, ⟨s.data.get ⟨s.idx, hlt⟩, List.getElem?_eq_getElem hlt⟩, rfl, rfl,
    by simpa using hidx, by simp [hne], fun b => fire_no_timer rfl b⟩

/-- Witness for `resume_at_last_index` at a concrete one-sample session. -/
theorem resume_at_last_index_witness :
    (Session.fire false
        (Session.resume ⟨"k", [mkTick 1 0], 0, false, 1, none, none⟩ 4)).1.playing =
      false ∧
    (Session.fire false
        (Session.resume ⟨"k", [mkTick 1 0], 0, false, 1, none, none⟩ 4)).1.timer =
      none ∧
    (Session.fire false
        (Session.resume ⟨"k", [mkTick 1 0], 0, false, 1, none, none⟩ 4)).2 =
      [(0, 4, ([mkTick 1 0] : List FdrTick)[(0 : ℕ)]?)] :=
  ⟨(resume_at_last_index ⟨"k", [mkTick 1 0], 0, false, 1, none, none⟩ 4 rfl rfl).2.2.1,
   (resume_at_last_index ⟨"k", [mkTick 1 0], 0, false, 1, none, none⟩ 4 rfl rfl).2.2.2.1,
   (resume_at_last_index ⟨"k", [mkTick 1 0], 0, false, 1, none, none⟩ 4 rfl rfl).1⟩

/-! ### C10: a rate change keeps the delivery destination -/

/-- C10: when `setRate` is called on a Running session (which always has a
remembered callback `c` from the most recent `resume`), the session is
Running again afterwards, still remembers `c`, and its rescheduled pending
advance carries `c`; moreover any advance fired from a state whose pending
timer carries `c` delivers through `c` and only ever reschedules `c` — so
the rate change alone never changes or silences the destination of
subsequent tick deliveries. -/
theorem setRate_preserves_callback (s : Session) (r : ℚ) (c : ℕ)
    (hplay : s.playing = true) (hcb : s.lastOnTick = some c) (hne : s.data ≠ []) :
    ((s.setRate r).1.playing = true ∧
     (s.setRate r).1.lastOnTick = some c ∧
     (∃ d, (s.setRate r).1.timer = some (d, c))) ∧
    (∀ u : Session, (∀ p, u.timer = some p → p.2 = c) →
      (∀ x ∈ (Session.fire false u).2, x.2.1 = c) ∧
      (∀ p, (Session.fire false u).1.timer = some p → p.2 = c)) := by
  constructor
  · have h1 : (s.setRate r).1 =
        Session.resume (Session.pause { s with rate := max (1/10) r }) c := by
      simp only [Session.setRate]
      rw [if_pos (by simpa using hplay)]
      have h2 : (Session.pause { s with rate := max (1/10) r }).lastOnTick = some c := by
        simpa [Session.pause] using hcb
      rw [h2]
    have hpne : (Session.pause { s with rate := max (1/10) r }).data ≠ [] := by
      simpa [Session.pause] using hne
    rw [h1, resume_idle _ c rfl hpne, scheduleNext_playing rfl c]
    exact ⟨rfl, rfl, _, rfl⟩
  · intro u hu
    match ht : u.timer with
    | none =>
      rw [fire_no_timer ht false]
      constructor
      · intro x hx
        simp at hx
      · intro p hp
        exact hu p (ht.symm ▸ hp)
    | some (d, cbx) =>
      have hcbx : cbx = c := hu (d, cbx) ht
      by_cases hp : u.playing = false
      · constructor
        · intro x hx
          simp [Session.fire, ht, hp] at hx
        · intro p hpp
          simp [Session.fire, ht, hp] at hpp
      · have hp2 : u.playing = true := by
          cases h : u.playing
          · exact absurd h hp
          · rfl
        by_cases hend : u.data.length ≤ u.idx + 1
        · rw [fire_end_step u d cbx ht hp2 hend]
          constructor
          · intro x hx
            simp at hx
            rw [hx]
            exact hcbx
          · intro p hpp
            simp at hpp
        · constructor
          · intro x hx
            simp only [Session.fire, ht] at hx
            rw [if_neg hp, if_neg (by simp), if_neg hend] at hx
            simp at hx
            rw [hx]
            exact hcbx
          · intro p hpp
            simp only [Session.fire, ht] at hpp
            rw [if_neg hp, if_neg (by simp), if_neg hend] at hpp
            simp only [Session.scheduleNext] at hpp
            split at hpp
            · simp at hpp
            · injection hpp with hinj
              rw [← hinj]
              exact hcbx

/-! ### C1: the pacing formula -/

theorem delayAt_some {s : Session} {cur nxt : FdrTick}
    (h1 : s.data[s.idx]? = some cur) (h2 : s.data[s.idx + 1]? = some nxt) :
    s.delayAt = max 10 ⌊((nxt.ts - cur.ts : ℚ) / s.rate)⌋ := by
  simp [Session.delayAt, h1, h2]

theorem fire_scheduled (s : Session) (cb : ℕ) (hp : s.playing = true) :
    (Session.fire false (s.scheduleNext cb)).2 = [(s.delayAt, cb, s.data[s.idx]?)] := by
  rw [scheduleNext_playing hp cb]
  simp only [Session.fire]
  rw [if_neg (by simp [hp])]
  rw [if_neg (by simp)]
  split <;> rfl

/-- C1 amended: in a Running session, `scheduleNext` installs the pending
advance with delay `max(10, floor((sample[i+1].ts − sample[i].ts) / rate))`
when the cursor `i` has a next sample, and with delay 0 when the cursor
sample is the last; that pending advance delivers the cursor sample `i`
itself — the delay elapses before delivering sample `i`, i.e. between
delivering sample `i−1` and sample `i`, not between `i` and `i+1`, and the
rounding is floor, not round-to-nearest. -/
theorem scheduleNext_delay_floor (s : Session) (cb : ℕ) (hplay : s.playing = true) :
    (∀ cur nxt, s.data[s.idx]? = some cur → s.data[s.idx + 1]? = some nxt →
      (s.scheduleNext cb).timer =
        some (max 10 ⌊((nxt.ts - cur.ts : ℚ) / s.rate)⌋, cb) ∧
      (Session.fire false (s.scheduleNext cb)).2 =
        [(max 10 ⌊((nxt.ts - cur.ts : ℚ) / s.rate)⌋, cb, some cur)]) ∧
    (s.data[s.idx + 1]? = none →
      (s.scheduleNext cb).timer = some (0, cb) ∧
      (Session.fire false (s.scheduleNext cb)).2 = [(0, cb, s.data[s.idx]?)]) := by
  constructor
  · intro cur nxt h1 h2
    constructor
    · rw [scheduleNext_playing hplay cb, delayAt_some h1 h2]
    · rw [fire_scheduled s cb hplay, delayAt_some h1 h2, h1]
  · intro h2
    constructor
    · rw [scheduleNext_playing hplay cb, delayAt_next_none h2]
    · rw [fire_scheduled s cb hplay, delayAt_next_none h2]

/-- Witness for `scheduleNext_delay_floor` at a concrete running
session. -/
theorem scheduleNext_delay_floor_witness :
    (Session.scheduleNext
        ⟨"k", [mkTick 1 0, mkTick 2 1000], 0, true, 1, none, none⟩ 3).timer =
      some (max 10
        ⌊(((mkTick 2 1000).ts - (mkTick 1 0).ts : ℚ) /
          (⟨"k", [mkTick 1 0, mkTick 2 1000], 0, true, 1, none, none⟩ : Session).rate)⌋,
        3) :=
  ((scheduleNext_delay_floor ⟨"k", [mkTick 1 0, mkTick 2 1000], 0, true, 1, none, none⟩
      3 rfl).1 (mkTick 1 0) (mkTick 2 1000) rfl rfl).1

/-- C1 counterexample: samples at ts 0 and 1003, rate 4, resumed from idle
and run to completion.  The code schedules 250 ms (the floor of 250.75)
before delivering sample 0, while the claim's formula
`max(10, round(Δ/rate))` gives 251; and the delay that elapses between
delivering sample 0 and sample 1 is the 0 computed at cursor 1 (no next
sample there), not 251. -/
theorem scheduleNext_delay_not_round :
    (Session.fire false
        (Session.resume ⟨"k", [mkTick 1 0, mkTick 2 1003], 0, false, 4, none, none⟩ 9)).2 =
      [(250, 9, some (mkTick 1 0))] ∧
    (Session.fire false
        (Session.fire false
          (Session.resume
            ⟨"k", [mkTick 1 0, mkTick 2 1003], 0, false, 4, none, none⟩ 9)).1).2 =
      [(0, 9, some (mkTick 2 1003))] ∧
    specDelay (mkTick 1 0).ts (mkTick 2 1003).ts 4 = 251 ∧
    (250 : ℤ) ≠ 251 ∧ (0 : ℤ) ≠ 251 := by
  have hda : Session.delayAt ⟨"k", [mkTick 1 0, mkTick 2 1003], 0, true, 4, none, some 9⟩ =
      250 := by
    rw [@delayAt_some ⟨"k", [mkTick 1 0, mkTick 2 1003], 0, true, 4, none, some 9⟩
      (mkTick 1 0) (mkTick 2 1003) rfl rfl]
    norm_num [mkTick]
  refine ⟨?_, ?_, ?_, by decide, by decide⟩
  · have hA : (Session.fire false
        (Session.resume ⟨"k", [mkTick 1 0, mkTick 2 1003], 0, false, 4, none, none⟩ 9)).2 =
        [(Session.delayAt ⟨"k", [mkTick 1 0, mkTick 2 1003], 0, true, 4, none, some 9⟩,
          9, some (mkTick 1 0))] := rfl
    rw [hA, hda]
  · rfl
  · show max 10 (specRound (((mkTick 2 1003).ts - (mkTick 1 0).ts : ℚ) / 4)) = 251
    norm_num [specRound, mkTick]

/-! ### C2: cursor bounds -/

theorem seekLoop_lt (tsl : List ℤ) (target : ℚ) :
    ∀ (n : ℕ) (lo : ℕ) (hi : ℤ) (ans : ℕ), (hi + 1 - (lo : ℤ)).toNat ≤ n →
      ans < tsl.length → hi < (tsl.length : ℤ) →
      Session.seekLoop tsl target lo hi ans < tsl.length := by
  intro n
  induction n with
  | zero =>
    intro lo hi ans hm hans hhi
    have h : ¬((lo : ℤ) ≤ hi) := by omega
    rw [Session.seekLoop, dif_neg h]
    exact hans
  | succ n ih =>
    intro lo hi ans hm hans hhi
    by_cases h : (lo : ℤ) ≤ hi
    · have hstep : Session.seekLoop tsl target lo hi ans =
          if ((tsl.getD ((lo + hi.toNat) / 2) 0 : ℤ) : ℚ) ≤ target then
            Session.seekLoop tsl target ((lo + hi.toNat) / 2 + 1) hi ((lo + hi.toNat) / 2)
          else
            Session.seekLoop tsl target lo (((lo + hi.toNat) / 2 : ℕ) - 1) ans := by
        rw [Session.seekLoop, dif_pos h]
      rw [hstep]
      by_cases hle : ((tsl.getD ((lo + hi.toNat) / 2) 0 : ℤ) : ℚ) ≤ target
      · rw [if_pos hle]
        exact ih ((lo + hi.toNat) / 2 + 1) hi ((lo + hi.toNat) / 2) (by omega)
          (by omega) hhi
      · rw [if_neg hle]
        exact ih lo (((lo + hi.toNat) / 2 : ℕ) - 1) ans (by omega) hans (by omega)
    · rw [Session.seekLoop, dif_neg h]
      exact hans

/-- C2 counterexample: a reachable run of the public operations pushes the
cursor to `len(samples)`.  With a one-sample store: create the session,
resume it, let the single scheduled advance fire; the registered session
then has `cursor = 1 = len(samples)`, outside `[0, len)`. -/
theorem cursor_reaches_length :
    Option.map Session.idx
      (lookupS
        (fireE false
          (resumeE (fun _ => [mkTick 1 0])
            (ensureSession (fun _ => [mkTick 1 0]) Engine.empty ⟨"F1", 20250324⟩).1
            ⟨"F1", 20250324⟩ 5)
          (keyOf ⟨"F1", 20250324⟩)).1.sessions
        (keyOf ⟨"F1", 20250324⟩)) = some 1 ∧
    Option.map (fun s => s.data.length)
      (lookupS
        (fireE false
          (resumeE (fun _ => [mkTick 1 0])
            (ensureSession (fun _ => [mkTick 1 0]) Engine.empty ⟨"F1", 20250324⟩).1
            ⟨"F1", 20250324⟩ 5)
          (keyOf ⟨"F1", 20250324⟩)).1.sessions
        (keyOf ⟨"F1", 20250324⟩)) = some 1 := by decide

/-- C2 amended: `ensureSession` creates sessions with cursor 0; `pause`,
`resume` and `setRate` never move the cursor and engine-level `snapshot`
leaves the registry unchanged; `seekPoints` and `seekSeconds` always land
the cursor inside `[0, len)` for non-empty data (and keep it at 0 for
empty data); but the timer-driven advance increments the cursor by exactly
one and may thereby move it to `len(samples)` (or beyond, after resuming a
finished session) — whenever the incremented cursor reaches or passes
`len`, the session stops playing. -/
theorem cursor_bounds :
    (∀ (store : FlightKey → List FdrTick) (e : Engine) (k : FlightKey),
      lookupS e.sessions (keyOf k) = none → (ensureSession store e k).2.idx = 0) ∧
    (∀ s : Session, s.pause.idx = s.idx) ∧
    (∀ (s : Session) (cb : ℕ), (s.resume cb).idx = s.idx) ∧
    (∀ (s : Session) (q : ℚ), (s.setRate q).1.idx = s.idx) ∧
    (∀ (store : FlightKey → List FdrTick) (e : Engine) (k : FlightKey) (s : Session),
      lookupS e.sessions (keyOf k) = some s → (snapshotE store e k).1 = e) ∧
    (∀ (s : Session) (d : ℤ), s.data = [] → (s.seekPoints d).1.idx = 0) ∧
    (∀ (s : Session) (d : ℤ), s.data ≠ [] → (s.seekPoints d).1.idx < s.data.length) ∧
    (∀ (s : Session) (q : ℚ), s.data = [] → (s.seekSeconds q).1.idx = s.idx) ∧
    (∀ (s : Session) (q : ℚ), s.data ≠ [] → (s.seekSeconds q).1.idx < s.data.length) ∧
    (∀ (b : Bool) (s : Session),
      (Session.fire b s).1.idx = s.idx ∨ (Session.fire b s).1.idx = s.idx + 1) ∧
    (∀ (b : Bool) (s : Session), (Session.fire b s).1.idx = s.idx + 1 →
      s.data.length ≤ s.idx + 1 → (Session.fire b s).1.playing = false) := by
  refine ⟨?_, fun s => rfl, ?_, ?_, ?_, ?_, ?_, ?_, ?_, ?_, ?_⟩
  · intro store e k h
    unfold ensureSession
    rw [h]
  · intro s cb
    simp only [Session.resume, Session.scheduleNext]
    split <;> rfl
  · intro s q
    simp only [Session.setRate]
    split
    · split
      · show (Session.resume _ _).idx = s.idx
        simp only [Session.resume, Session.scheduleNext]
        split <;> rfl
      · rfl
    · rfl
  · intro store e k s h
    unfold snapshotE ensureSession
    rw [h]
  · intro s d he
    simp [Session.seekPoints, he]
  · intro s d he
    have hlen : 0 < s.data.length := List.length_pos.mpr he
    simp only [Session.seekPoints]
    omega
  · intro s q he
    rw [Session.seekSeconds, if_pos he]
  · intro s q he
    have hlen : 0 < s.data.length := List.length_pos.mpr he
    rw [Session.seekSeconds, if_neg he]
    have hb := seekLoop_lt (s.data.map FdrTick.ts) (Session.seekTarget s q)
      s.data.length 0 ((s.data.length : ℤ) - 1) 0
      (by omega) (by simpa using hlen) (by rw [List.length_map] ; omega)
    simpa using hb
  · intro b s
    match ht : s.timer with
    | none =>
      rw [fire_no_timer ht b]
      exact Or.inl rfl
    | some (d, cb) =>
      by_cases hp : s.playing = false
      · left
        simp [Session.fire, ht, hp]
      · by_cases hb : b = true
        · left
          simp [Session.fire, ht, hp, hb]
        · have hbf : b = false := by
            cases b
            · rfl
            · exact absurd rfl hb
          subst hbf
          by_cases hend : s.data.length ≤ s.idx + 1
          · right
            rw [fire_end_step s d cb ht (by simpa using hp) hend]
          · right
            simp only [Session.fire, ht]
            rw [if_neg hp, if_neg (by simp),
              if_neg (show ¬(s.data.length ≤ s.idx + 1) from hend)]
            simp only [Session.scheduleNext]
            split <;> rfl
  · intro b s hidx hlen
    match ht : s.timer with
    | none =>
      rw [fire_no_timer ht b] at hidx
      have h2 : s.idx = s.idx + 1 := hidx
      omega
    | some (d, cb) =>
      by_cases hp : s.playing = false
      · have hfe : Session.fire b s = ({ s with timer := none }, []) := by
          simp [Session.fire, ht, hp]
        rw [hfe] at hidx
        simp at hidx
      · by_cases hb : b = true
        · have hfe : Session.fire b s =
              ({ s with timer := none }, [(d, cb, s.data[s.idx]?)]) := by
            simp [Session.fire, ht, hp, hb]
          rw [hfe] at hidx
          simp at hidx
        · have hbf : b = false := by
            cases b
            · rfl
            · exact absurd rfl hb
          subst hbf
          rw [fire_end_step s d cb ht (by simpa using hp) hlen]

/-- Witness for `cursor_bounds` at concrete sessions. -/
theorem cursor_bounds_witness :
    (Session.seekPoints ⟨"k", [mkTick 1 0, mkTick 2 1000], 0, false, 1, none, none⟩
      7).1.idx < 2 ∧
    (Session.seekPoints ⟨"k", [], 0, false, 1, none, none⟩ (-4)).1.idx = 0 ∧
    (ensureSession (fun _ => []) Engine.empty ⟨"F1", 1⟩).2.idx = 0 :=
  ⟨cursor_bounds.2.2.2.2.2.2.1 ⟨"k", [mkTick 1 0, mkTick 2 1000], 0, false, 1, none, none⟩
      7 (by decide),
   cursor_bounds.2.2.2.2.2.1 ⟨"k", [], 0, false, 1, none, none⟩ (-4) rfl,
   cursor_bounds.1 (fun _ => []) Engine.empty ⟨"F1", 1⟩ rfl⟩

/-! ### C5: seekSeconds finds the rightmost index not past the target -/

theorem seekLoop_exit (tsl : List ℤ) (target : ℚ) (hlen : 0 < tsl.length)
    (lo : ℕ) (hi : ℤ) (ans : ℕ)
    (h : ¬((lo : ℤ) ≤ hi))
    (hhi : hi < (tsl.length : ℤ))
    (hlo : (lo : ℤ) ≤ hi + 1)
    (hinv : (lo = 0 ∧ ans = 0) ∨
      (0 < lo ∧ ans = lo - 1 ∧ ((tsl.getD (lo - 1) 0 : ℚ) ≤ target)))
    (hright : ∀ j : ℕ, hi < (j : ℤ) → j < tsl.length → target < (tsl.getD j 0 : ℚ)) :
    ans < tsl.length ∧
    (((tsl.getD ans 0 : ℚ) ≤ target) ∨ ans = 0) ∧
    (∀ j : ℕ, j < tsl.length → ((tsl.getD j 0 : ℚ) ≤ target) → j ≤ ans) := by
  refine ⟨?_, ?_, ?_⟩
  · rcases hinv with ⟨h0, ha⟩ | ⟨hpos, ha, _⟩ <;> omega
  · rcases hinv with ⟨h0, ha⟩ | ⟨hpos, ha, hle⟩
    · right
      exact ha
    · left
      rw [ha]
      exact hle
  · intro j hj hjle
    by_contra hgt
    push_neg at hgt
    have hlt : target < (tsl.getD j 0 : ℚ) := by
      apply hright j ?_ hj
      rcases hinv with ⟨h0, ha⟩ | ⟨hpos, ha, _⟩ <;> omega
    exact absurd hjle (not_le.mpr hlt)

theorem seekLoop_spec (tsl : List ℤ) (target : ℚ)
    (hsor : ∀ i j : ℕ, i ≤ j → j < tsl.length → tsl.getD i 0 ≤ tsl.getD j 0)
    (hlen : 0 < tsl.length) :
    ∀ (n : ℕ) (lo : ℕ) (hi : ℤ) (ans : ℕ),
      (hi + 1 - (lo : ℤ)).toNat ≤ n →
      hi < (tsl.length : ℤ) →
      (lo : ℤ) ≤ hi + 1 →
      ((lo = 0 ∧ ans = 0) ∨
        (0 < lo ∧ ans = lo - 1 ∧ ((tsl.getD (lo - 1) 0 : ℚ) ≤ target))) →
      (∀ j : ℕ, hi < (j : ℤ) → j < tsl.length → target < (tsl.getD j 0 : ℚ)) →
      Session.seekLoop tsl target lo hi ans < tsl.length ∧
      (((tsl.getD (Session.seekLoop tsl target lo hi ans) 0 : ℚ) ≤ target) ∨
        Session.seekLoop tsl target lo hi ans = 0) ∧
      (∀ j : ℕ, j < tsl.length → ((tsl.getD j 0 : ℚ) ≤ target) →
        j ≤ Session.seekLoop tsl target lo hi ans) := by
  intro n
  induction n with
  | zero =>
    intro lo hi ans hm hhi hlo hinv hright
    have h : ¬((lo : ℤ) ≤ hi) := by omega
    rw [Session.seekLoop, dif_neg h]
    exact seekLoop_exit tsl target hlen lo hi ans h hhi hlo hinv hright
  | succ n ih =>
    intro lo hi ans hm hhi hlo hinv hright
    by_cases h : (lo : ℤ) ≤ hi
    · have hstep : Session.seekLoop tsl target lo hi ans =
          if ((tsl.getD ((lo + hi.toNat) / 2) 0 : ℤ) : ℚ) ≤ target then
            Session.seekLoop tsl target ((lo + hi.toNat) / 2 + 1) hi ((lo + hi.toNat) / 2)
          else
            Session.seekLoop tsl target lo (((lo + hi.toNat) / 2 : ℕ) - 1) ans := by
        rw [Session.seekLoop, dif_pos h]
      rw [hstep]
      by_cases hle : ((tsl.getD ((lo + hi.toNat) / 2) 0 : ℤ) : ℚ) ≤ target
      · rw [if_pos hle]
        apply ih ((lo + hi.toNat) / 2 + 1) hi ((lo + hi.toNat) / 2)
          (by omega) hhi (by omega) ?_ hright
        right
        refine ⟨by omega, by omega, ?_⟩
        simpa using hle
      · rw [if_neg hle]
        apply ih lo (((lo + hi.toNat) / 2 : ℕ) - 1) ans
          (by omega) (by omega) (by omega) hinv ?_
        intro j hj hjlen
        have hmj : (lo + hi.toNat) / 2 ≤ j := by omega
        by_cases hjhi : (j : ℤ) ≤ hi
        · have hs := hsor ((lo + hi.toNat) / 2) j hmj hjlen
          exact lt_of_lt_of_le (lt_of_not_le hle) (by exact_mod_cast hs)
        · exact hright j (by omega) hjlen
    · rw [Session.seekLoop, dif_neg h]
      exact seekLoop_exit tsl target hlen lo hi ans h hhi hlo hinv hright

/-- C5: for a session with time-sorted samples, `seekSeconds` on empty
data is a no-op returning the snapshot; on non-empty data it moves the
cursor to the greatest index whose timestamp does not exceed
`target = (sample[cursor].ts, or sample[0].ts if the cursor is out of
bounds) + seconds*1000`, defaulting to 0 when even the first sample
exceeds the target, and changes nothing else about the session. -/
theorem seekSeconds_rightmost (s : Session) (q : ℚ)
    (hsor : List.Pairwise (fun a b : FdrTick => a.ts ≤ b.ts) s.data) :
    (s.data = [] → s.seekSeconds q = (s, Session.snap s)) ∧
    (s.data ≠ [] →
      (s.seekSeconds q).1.idx < s.data.length ∧
      (∀ t, s.data[(s.seekSeconds q).1.idx]? = some t →
        ((t.ts : ℚ) ≤ Session.seekTarget s q ∨ (s.seekSeconds q).1.idx = 0)) ∧
      (∀ (j : ℕ) (t : FdrTick), s.data[j]? = some t →
        (t.ts : ℚ) ≤ Session.seekTarget s q → j ≤ (s.seekSeconds q).1.idx) ∧
      (s.seekSeconds q).1.data = s.data ∧
      (s.seekSeconds q).1.playing = s.playing ∧
      (s.seekSeconds q).1.rate = s.rate ∧
      (s.seekSeconds q).2 = Session.snap (s.seekSeconds q).1) := by
  constructor
  · intro he
    rw [Session.seekSeconds, if_pos he]
  · intro hne
    have hlen : 0 < s.data.length := List.length_pos.mpr hne
    have hgd : ∀ (j : ℕ) (t : FdrTick), s.data[j]? = some t →
        j < s.data.length ∧ (s.data.map FdrTick.ts).getD j 0 = t.ts := by
      intro j t hjt
      have hj : j < s.data.length := by
        by_contra hge
        rw [List.getElem?_eq_none (by omega)] at hjt
        cases hjt
      refine ⟨hj, ?_⟩
      rw [List.getD_eq_getElem?_getD, List.getElem?_map, hjt]
      rfl
    have hsor2 : ∀ i j : ℕ, i ≤ j → j < (s.data.map FdrTick.ts).length →
        (s.data.map FdrTick.ts).getD i 0 ≤ (s.data.map FdrTick.ts).getD j 0 := by
      intro i j hij hj
      rw [List.length_map] at hj
      have hi : i < s.data.length := lt_of_le_of_lt hij hj
      rw [List.getD_eq_getElem?_getD, List.getD_eq_getElem?_getD,
        List.getElem?_map, List.getElem?_map,
        List.getElem?_eq_getElem hi, List.getElem?_eq_getElem hj,
        Option.map_some', Option.map_some', Option.getD_some, Option.getD_some]
      rcases lt_or_eq_of_le hij with hlt | heq
      · exact List.pairwise_iff_getElem.mp hsor i j hi hj hlt
      · subst heq
        exact le_refl _
    have hidx : (s.seekSeconds q).1.idx =
        Session.seekLoop (s.data.map FdrTick.ts) (Session.seekTarget s q) 0
          ((s.data.length : ℤ) - 1) 0 := by
      rw [Session.seekSeconds, if_neg hne]
    have hspec := seekLoop_spec (s.data.map FdrTick.ts) (Session.seekTarget s q)
      hsor2 (by simpa using hlen) s.data.length 0 ((s.data.length : ℤ) - 1) 0
      (by omega) (by rw [List.length_map] ; omega) (by omega)
      (Or.inl ⟨rfl, rfl⟩)
      (by
        intro j hj hjlen
        exfalso
        rw [List.length_map] at hjlen
        omega)
    rw [List.length_map] at hspec
    refine ⟨?_, ?_, ?_, ?_, ?_, ?_, ?_⟩
    · rw [hidx]
      exact hspec.1
    · intro t ht
      rw [hidx] at ht ⊢
      rcases hspec.2.1 with hle | h0
      · left
        rw [(hgd _ t ht).2] at hle
        exact hle
      · right
        exact h0
    · intro j t hjt hle
      rw [hidx]
      obtain ⟨hj, hg⟩ := hgd j t hjt
      apply hspec.2.2 j hj
      rw [hg]
      exact hle
    · rw [Session.seekSeconds, if_neg hne]
    · rw [Session.seekSeconds, if_neg hne]
    · rw [Session.seekSeconds, if_neg hne]
    · rw [Session.seekSeconds, if_neg hne]

/-- Witness for `seekSeconds_rightmost` at the concrete session from the
spec's seek test (timestamps 0, 1000, 2000, 5000). -/
theorem seekSeconds_rightmost_witness :
    (Session.seekSeconds
        ⟨"k", [mkTick 1 0, mkTick 2 1000, mkTick 3 2000, mkTick 4 5000],
          0, false, 1, none, none⟩ 2).1.idx <
      (⟨"k", [mkTick 1 0, mkTick 2 1000, mkTick 3 2000, mkTick 4 5000],
          0, false, 1, none, none⟩ : Session).data.length ∧
    (Session.seekSeconds
        ⟨"k", [mkTick 1 0, mkTick 2 1000, mkTick 3 2000, mkTick 4 5000],
          0, false, 1, none, none⟩ 2).1.data =
      (⟨"k", [mkTick 1 0, mkTick 2 1000, mkTick 3 2000, mkTick 4 5000],
          0, false, 1, none, none⟩ : Session).data :=
  ⟨((seekSeconds_rightmost
      ⟨"k", [mkTick 1 0, mkTick 2 1000, mkTick 3 2000, mkTick 4 5000],
        0, false, 1, none, none⟩ 2 (by decide)).2 (by decide)).1,
   ((seekSeconds_rightmost
      ⟨"k", [mkTick 1 0, mkTick 2 1000, mkTick 3 2000, mkTick 4 5000],
        0, false, 1, none, none⟩ 2 (by decide)).2 (by decide)).2.2.2.1⟩

/-! ### C8: load ordering -/

theorem pad2_nocolon : ∀ n : ℕ, n < 100 → ∀ c ∈ pad2 n, c ≠ colonChar := by decide

theorem parseDigits_pad2 : ∀ n : ℕ, n < 100 → parseDigits (pad2 n) = n := by decide

theorem char_toNat_pad : ∀ d : ℕ, d < 10 → (Char.ofNat (48 + d)).toNat = 48 + d := by
  decide

theorem strLeB_pad2_append (a b : ℕ) (ha : a < 100) (hb : b < 100)
    (u v : List Char) :
    strLeB (pad2 a ++ u) (pad2 b ++ v) =
      if a < b then true else if b < a then false else strLeB u v := by
  have h1 := char_toNat_pad (a / 10) (by omega)
  have h2 := char_toNat_pad (b / 10) (by omega)
  have h3 := char_toNat_pad (a % 10) (by omega)
  have h4 := char_toNat_pad (b % 10) (by omega)
  simp only [pad2, List.cons_append, List.nil_append, strLeB, h1, h2, h3, h4]
  split_ifs <;> first | rfl | omega

theorem splitChars_nocolon :
    ∀ xs : List Char, (∀ c ∈ xs, c ≠ colonChar) → splitChars xs = [xs] := by
  intro xs
  induction xs with
  | nil => intro _ ; rfl
  | cons c rest ih =>
    intro h
    have hc : c ≠ colonChar := h c (by simp)
    simp only [splitChars, if_neg hc]
    rw [ih (fun x hx => h x (by simp [hx]))]

theorem splitChars_append :
    ∀ xs ys : List Char, (∀ c ∈ xs, c ≠ colonChar) →
      splitChars (xs ++ colonChar :: ys) = xs :: splitChars ys := by
  intro xs
  induction xs with
  | nil =>
    intro ys _
    simp [splitChars]
  | cons c rest ih =>
    intro ys h
    have hc : c ≠ colonChar := h c (by simp)
    simp only [List.cons_append, splitChars, if_neg hc, List.append_eq]
    rw [ih ys (fun x hx => h x (by simp [hx]))]

theorem toTs_render (d : ℤ) (hh mm ss : ℕ)
    (b1 : hh < 100) (b2 : mm < 100) (b3 : ss < 100) :
    toTs d (renderUtc hh mm ss) =
      dateUTC (Int.fdiv d 10000) (Int.fdiv (Int.tmod d 10000) 100 - 1)
        (Int.tmod d 100) hh mm ss := by
  simp only [toTs]
  rw [show (renderUtc hh mm ss).data =
    pad2 hh ++ colonChar :: (pad2 mm ++ colonChar :: pad2 ss) from rfl]
  rw [splitChars_append _ _ (pad2_nocolon hh b1),
    splitChars_append _ _ (pad2_nocolon mm b2),
    splitChars_nocolon _ (pad2_nocolon ss b3)]
  rw [show ([pad2 hh, pad2 mm, pad2 ss] : List (List Char)).getD 0 [] = pad2 hh from rfl,
    show ([pad2 hh, pad2 mm, pad2 ss] : List (List Char)).getD 1 [] = pad2 mm from rfl,
    show ([pad2 hh, pad2 mm, pad2 ss] : List (List Char)).getD 2 [] = pad2 ss from rfl,
    parseDigits_pad2 hh b1, parseDigits_pad2 mm b2, parseDigits_pad2 ss b3]

theorem dateUTC_mono (y m0 d : ℤ) (h1 m1 s1 h2 m2 s2 : ℕ)
    (hm1 : m1 < 60) (hs1 : s1 < 60)
    (hlex : h1 < h2 ∨ (h1 = h2 ∧ (m1 < m2 ∨ (m1 = m2 ∧ s1 ≤ s2)))) :
    dateUTC y m0 d h1 m1 s1 ≤ dateUTC y m0 d h2 m2 s2 := by
  simp only [dateUTC]
  rcases hlex with hA | ⟨hA, hB | ⟨hB, hC⟩⟩ <;> omega

theorem strLeB_render {h1 m1 s1 h2 m2 s2 : ℕ}
    (b1 : h1 < 100) (b2 : m1 < 100) (b3 : s1 < 100)
    (b4 : h2 < 100) (b5 : m2 < 100) (b6 : s2 < 100)
    (hle : strLeB (renderUtc h1 m1 s1).data (renderUtc h2 m2 s2).data = true) :
    h1 < h2 ∨ (h1 = h2 ∧ (m1 < m2 ∨ (m1 = m2 ∧ s1 ≤ s2))) := by
  rw [show (renderUtc h1 m1 s1).data =
      pad2 h1 ++ colonChar :: (pad2 m1 ++ colonChar :: pad2 s1) from rfl,
    show (renderUtc h2 m2 s2).data =
      pad2 h2 ++ colonChar :: (pad2 m2 ++ colonChar :: pad2 s2) from rfl,
    strLeB_pad2_append h1 h2 b1 b4] at hle
  by_cases hA : h1 < h2
  · exact Or.inl hA
  · rw [if_neg hA] at hle
    by_cases hB : h2 < h1
    · rw [if_pos hB] at hle
      cases hle
    · rw [if_neg hB] at hle
      refine Or.inr ⟨by omega, ?_⟩
      rw [show strLeB (colonChar :: (pad2 m1 ++ colonChar :: pad2 s1))
          (colonChar :: (pad2 m2 ++ colonChar :: pad2 s2)) =
          strLeB (pad2 m1 ++ colonChar :: pad2 s1)
            (pad2 m2 ++ colonChar :: pad2 s2) from by
        simp [strLeB]] at hle
      rw [strLeB_pad2_append m1 m2 b2 b5] at hle
      by_cases hC : m1 < m2
      · exact Or.inl hC
      · rw [if_neg hC] at hle
        by_cases hD : m2 < m1
        · rw [if_pos hD] at hle
          cases hle
        · rw [if_neg hD] at hle
          refine Or.inr ⟨by omega, ?_⟩
          rw [show strLeB (colonChar :: pad2 s1) (colonChar :: pad2 s2) =
              strLeB (pad2 s1) (pad2 s2) from by simp [strLeB]] at hle
          rw [show (pad2 s1 : List Char) = pad2 s1 ++ [] from (List.append_nil _).symm,
            show (pad2 s2 : List Char) = pad2 s2 ++ [] from (List.append_nil _).symm,
            strLeB_pad2_append s1 s2 b3 b6] at hle
          by_cases hE : s1 < s2
          · omega
          · rw [if_neg hE] at hle
            by_cases hF : s2 < s1
            · rw [if_pos hF] at hle
              cases hle
            · omega

/-- C8 amended: the separate `PilotRepository.loadFlight` orders rows by
time-of-day (`utcTime ASC`) with `fdrTime` as the stable tiebreaker, and
for rows carrying well-formed zero-padded `HH:MM:SS` strings (and one
fixed date, as the per-key query guarantees) its output is non-decreasing
in `ts`; the session engine's own `PilotService.loadFlight`, however,
orders by `id` (insertion order), so a session's loaded sequence is
non-decreasing in timestamp only insofar as ids were assigned in time
order. -/
theorem loadFlightRepo_time_sorted (fn : String) (d : ℤ) (rows : List FdrRecord)
    (hwf : ∀ r ∈ rows, WfUtc r.utcTime)
    (hq : RepoQueryResult fn d rows) :
    (loadFlightRepo rows).Pairwise (fun a b => a.ts ≤ b.ts) := by
  unfold loadFlightRepo
  rw [List.pairwise_map]
  refine List.Pairwise.imp_of_mem ?_ hq.2
  intro a b ha hb hr
  obtain ⟨ah, am, ass, hah, ham, has, haeq⟩ := hwf a ha
  obtain ⟨bh, bm, bss, hbh, hbm, hbs, hbeq⟩ := hwf b hb
  show (repoMapRow a).ts ≤ (repoMapRow b).ts
  have hda : a.date = d := (hq.1 a ha).2
  have hdb : b.date = d := (hq.1 b hb).2
  rw [show (repoMapRow a).ts = toTs a.date a.utcTime from rfl,
    show (repoMapRow b).ts = toTs b.date b.utcTime from rfl,
    hda, hdb, haeq, hbeq,
    toTs_render d ah am ass (by omega) (by omega) (by omega),
    toTs_render d bh bm bss (by omega) (by omega) (by omega)]
  apply dateUTC_mono _ _ _ ah am ass bh bm bss ham has
  apply strLeB_render (by omega) (by omega) (by omega) (by omega) (by omega) (by omega)
  have hstr := hr.1
  rw [haeq, hbeq] at hstr
  exact hstr

/-- Witness for `loadFlightRepo_time_sorted` at two concrete well-formed
rows. -/
theorem loadFlightRepo_time_sorted_witness :
    (loadFlightRepo [mkRecord 1 20250324 ("09:59:59"),
      mkRecord 2 20250324 ("10:00:00")]).Pairwise (fun a b => a.ts ≤ b.ts) :=
  loadFlightRepo_time_sorted "F1" 20250324
    [mkRecord 1 20250324 ("09:59:59"), mkRecord 2 20250324 ("10:00:00")]
    (List.forall_mem_cons.mpr
      ⟨⟨9, 59, 59, by decide, by decide, by decide, by decide⟩,
       List.forall_mem_cons.mpr
        ⟨⟨10, 0, 0, by decide, by decide, by decide, by decide⟩,
         List.forall_mem_nil _⟩⟩)
    ⟨by decide, by decide⟩

/-- C8 counterexample: the session engine's `loadFlight` orders by `id`
only.  Two rows of one flight/date whose ids run against time order
satisfy everything the engine's query demands, yet the mapped sample
sequence has strictly decreasing timestamps. -/
theorem loadFlightSvc_id_order_not_time_sorted :
    SvcQueryResult "F1" 20250324
      [mkRecord 1 20250324 ("10:00:01"), mkRecord 2 20250324 ("10:00:00")] ∧
    (loadFlightSvc [mkRecord 1 20250324 ("10:00:01"),
      mkRecord 2 20250324 ("10:00:00")]).map FdrTick.ts =
      [1742810401000, 1742810400000] ∧
    ¬ (loadFlightSvc [mkRecord 1 20250324 ("10:00:01"),
      mkRecord 2 20250324 ("10:00:00")]).Pairwise (fun a b => a.ts ≤ b.ts) := by
  refine ⟨⟨by decide, by decide⟩, by decide, ?_⟩
  intro hp
  have h12 := List.pairwise_iff_getElem.mp hp 0 1 (by decide) (by decide) (by decide)
  revert h12
  decide

/-- Witness for `setRate_preserves_callback` at a concrete running
session. -/
theorem setRate_preserves_callback_witness :
    (Session.setRate
        ⟨"k", [mkTick 1 0], 0, true, 1, some (0, 5), some 5⟩ 2).1.playing = true ∧
    (Session.setRate
        ⟨"k", [mkTick 1 0], 0, true, 1, some (0, 5), some 5⟩ 2).1.lastOnTick = some 5 :=
  ⟨(setRate_preserves_callback ⟨"k", [mkTick 1 0], 0, true, 1, some (0, 5), some 5⟩
      2 5 rfl rfl (by decide)).1.1,
   (setRate_preserves_callback ⟨"k", [mkTick 1 0], 0, true, 1, some (0, 5), some 5⟩
      2 5 rfl rfl (by decide)).1.2.1⟩
end Airpilot
